import Mathlib

/-!
Verification of the raw-to-dimensional transformation engine of the
job-market-analytics-pipeline repository.

The definitions below are a shallow embedding of
`src/python/02_clean_and_normalize_glassdoor.py` together with the static
rule tables of `src/config_glassdoor_dataset.py`.  Python strings are
modelled as Lean `String` (a list of unicode code points, which is exactly
Python's string model); all of the repository's text data is ASCII, where
Python's `str.lower`/`str.strip` and the ASCII folding used here agree.
Python floats are modelled as exact rationals: the only arithmetic the code
performs on them is multiplication by the small integer constants 40, 52
and 12, which is exact in IEEE double for the magnitudes involved.
Scalar cell values (which in pandas may be null/NaN, numeric, or strings)
are modelled by the inductive type `Val`; the outcome of Python's
`float(...)` applied to a string is carried on the `vstr` constructor,
abstracting the runtime's decimal parser.
-/

/-- Python's substring test `needle in hay` at the level of code points:
some position of `hay` starts with `needle`. -/
def containsSub (hay needle : List Char) : Bool :=
  (List.range (hay.length + 1)).any (fun i => needle.isPrefixOf (hay.drop i))

/-- `needle in hay` for strings (Python substring containment). -/
def strContainsSub (hay needle : String) : Bool :=
  containsSub hay.toList needle.toList

/-- Python `str.lower()`.  `Char.toLower` folds exactly the ASCII range
A-Z, which coincides with Python's lowering on the ASCII data this
pipeline processes. -/
def strLower (s : String) : String :=
  (s.toList.map Char.toLower).asString

/-- Drop leading and trailing whitespace from a list of characters. -/
def trimChars (cs : List Char) : List Char :=
  ((cs.dropWhile Char.isWhitespace).reverse.dropWhile Char.isWhitespace).reverse

/-- Python `str.strip()` (ASCII whitespace, which is all that occurs in
the data handled here). -/
def strStrip (s : String) : String :=
  (trimChars s.toList).asString

/-- Helper for `splitComma`: accumulates the current segment (reversed). -/
def splitCommaAux : List Char → List Char → List (List Char)
  | [], acc => [acc.reverse]
  | c :: rest, acc =>
    if c = ',' then acc.reverse :: splitCommaAux rest []
    else splitCommaAux rest (c :: acc)

/-- Python `s.split(',')`: splits at every comma and keeps empty segments,
so the result is always nonempty (`''.split(',') == ['']`). -/
def splitComma (s : String) : List String :=
  (splitCommaAux s.toList []).map List.asString

/-- Lexicographic comparison of code-point lists, i.e. Python's `<=` on
strings restricted to what `sorted` observes. -/
def charListLe : List Char → List Char → Bool
  | [], _ => true
  | _ :: _, [] => false
  | a :: as, b :: bs =>
    if a.toNat = b.toNat then charListLe as bs else decide (a.toNat < b.toNat)

/-- Python's `<=` on strings (code-point lexicographic order). -/
def strLeB (a b : String) : Bool :=
  charListLe a.toList b.toList

/-- The regex word-character class `\w` as used by `re` on the ASCII data
processed here: `[a-zA-Z0-9_]`. -/
def isWordChar (c : Char) : Bool :=
  decide ((97 ≤ c.toNat ∧ c.toNat ≤ 122) ∨ (65 ≤ c.toNat ∧ c.toNat ≤ 90) ∨
    (48 ≤ c.toNat ∧ c.toNat ≤ 57) ∨ c.toNat = 95)

/-- Whether an optional character (a text position that may be out of
bounds) is a word character; out of bounds counts as non-word. -/
def wordAt : Option Char → Bool
  | none => false
  | some c => isWordChar c

/-- One candidate position of `re.search(r'\b' + re.escape(pat) + r'\b', txt)`:
the literal `pat` occurs at index `i` of `txt` and both ends sit on a
word boundary (exactly one side of each end is a word character, an
absent side counting as non-word). -/
def wbMatchAt (pat txt : List Char) (i : Nat) : Bool :=
  pat.isPrefixOf (txt.drop i) &&
  (wordAt (if i = 0 then none else txt.get? (i - 1)) != wordAt pat.head?) &&
  (wordAt (txt.get? (i + pat.length)) != wordAt pat.getLast?)

/-- `re.search(r'\b' + re.escape(pat) + r'\b', txt) is not None`. -/
def wbSearch (pat txt : List Char) : Bool :=
  (List.range (txt.length + 1)).any (wbMatchAt pat txt)

/-- Insert into a list so that the first position whose element is not
`le`-below the inserted one receives it (insertion-sort step). -/
def insertLe (le : α → α → Bool) (a : α) : List α → List α
  | [] => [a]
  | b :: bs => if le a b then a :: b :: bs else b :: insertLe le a bs

/-- Insertion sort by a boolean comparison. -/
def insSort (le : α → α → Bool) : List α → List α
  | [] => []
  | a :: as => insertLe le a (insSort le as)

/-- First-occurrence deduplication, accumulator form: keeps an element
only if its key is not in `seen` and has not occurred earlier. -/
def firstDedupAux [DecidableEq α] (seen : List α) : List α → List α
  | [] => []
  | a :: as =>
    if seen.any (fun x => decide (x = a)) then firstDedupAux seen as
    else a :: firstDedupAux (a :: seen) as

/-- First-occurrence deduplication: the distinct elements of a list in the
order in which they first occur (pandas `drop_duplicates` on all columns). -/
def firstDedup [DecidableEq α] (l : List α) : List α :=
  firstDedupAux [] l

/-- First-occurrence deduplication of rows by a key function, accumulator
form. -/
def dropDupFirstByAux [DecidableEq K] (key : α → K) (seen : List K) : List α → List α
  | [] => []
  | r :: rs =>
    if seen.any (fun x => decide (x = key r)) then dropDupFirstByAux key seen rs
    else r :: dropDupFirstByAux key (key r :: seen) rs

/-- pandas `drop_duplicates(subset=...)` with the default `keep='first'`:
keeps the first row carrying each key, in row order. -/
def dropDupFirstBy [DecidableEq K] (key : α → K) (l : List α) : List α :=
  dropDupFirstByAux key [] l

/-- Pair each element with a surrogate key from the dense sequence
1, 2, ... in list order (`range(1, len(df) + 1)` / `insert(0, id, ...)`). -/
def withIds (xs : List α) : List (Nat × α) :=
  (List.range' 1 xs.length).zip xs

/-- A pandas scalar cell: null/NaN, a number, or a string.  A `vstr`
carries the result of Python's `float(...)` on it (`none` means
`float` raises `ValueError`). -/
inductive Val where
  | vnull : Val
  | vnum : ℚ → Val
  | vstr : String → Option ℚ → Val
deriving DecidableEq

/-- Rendering of a rational used for `str(...)` of a numeric cell; only
digits, `-` and `/` occur, so it never contains an alphabetic trigger
substring, exactly like Python's rendering of a float. -/
def ratStr (q : ℚ) : String :=
  toString q.num ++ "/" ++ toString q.den

/-- Python `str(x)` of a cell, as observed by the pipeline (the only use
is substring tests against alphabetic keywords; `str(nan) = 'nan'` and
numeric renderings contain no alphabetic keyword). -/
def valStr : Val → String
  | Val.vnull => "nan"
  | Val.vnum q => ratStr q
  | Val.vstr s _ => s

/-- pandas `pd.notna`. -/
def notna : Val → Bool
  | Val.vnull => false
  | _ => true

/-- The result of Python `float(x)` when it succeeds, `none` when it
raises (`float(None)`, `float(nan)`-free nulls, unparsable strings). -/
def pyFloat? : Val → Option ℚ
  | Val.vnull => none
  | Val.vnum q => some q
  | Val.vstr _ p => p

/-- Python `float(x)` with its exception made explicit. -/
def pyFloatE (v : Val) : Except String ℚ :=
  match pyFloat? v with
  | some q => Except.ok q
  | none => Except.error "could not convert to float"

/-- A bare `try: return body ... except: pass` followed by `fallback`:
every exception of the body is swallowed and control continues. -/
def pyTry (body fallback : Except String α) : Except String α :=
  match body with
  | Except.ok v => Except.ok v
  | Except.error _ => fallback

/-- `REMOTE_KEYWORDS` of src/config_glassdoor_dataset.py. -/
def REMOTE_KEYWORDS : List String :=
  ["remote", "work from home", "wfh", "telecommute", "virtual",
   "anywhere", "distributed", "work-from-home", "home-based",
   "remote position", "remote opportunity", "fully remote", "100% remote"]

/-- `SENIORITY_KEYWORDS` of src/config_glassdoor_dataset.py, as the
ordered association list the Python dict literal denotes. -/
def SENIORITY_KEYWORDS : List (String × List String) :=
  [("Junior", ["junior", "jr", "jr.", "entry", "entry-level", "associate", " i ", "intern", "entry level"]),
   ("Mid-level", [" ii ", "mid-level", "mid level", "intermediate"]),
   ("Senior", ["senior", "sr", "sr.", " iii ", "lead", "principal", "staff", "expert"]),
   ("Management", ["manager", "director", "head of", "vp", "vice president", "chief", "cto", "cdo", "executive"])]

/-- `JOB_TITLE_GROUPS` of src/config_glassdoor_dataset.py. -/
def JOB_TITLE_GROUPS : List (String × List String) :=
  [("Data Analyst", ["data analyst", "business analyst", "analytics analyst",
      "marketing analyst", "financial analyst", "product analyst",
      "reporting analyst", "insights analyst"]),
   ("Data Scientist", ["data scientist", "machine learning scientist", "research scientist",
      "applied scientist", "quantitative analyst", "statistician"]),
   ("Data Engineer", ["data engineer", "etl developer", "big data engineer",
      "platform engineer", "pipeline engineer", "data warehouse engineer"]),
   ("Analytics Engineer", ["analytics engineer", "bi engineer", "data analytics engineer"]),
   ("BI Analyst", ["bi analyst", "business intelligence analyst", "bi developer",
      "tableau developer", "power bi developer", "looker analyst"]),
   ("ML Engineer", ["machine learning engineer", "ml engineer", "mlops engineer",
      "ai engineer", "deep learning engineer"]),
   ("Data Manager", ["data manager", "analytics manager", "data science manager",
      "bi manager", "director of", "head of data", "chief data officer",
      "vp of data", "vp data"])]

/-- `SKILLS_DICT` of src/config_glassdoor_dataset.py: the skill taxonomy,
an ordered mapping from category to the skill strings it recognizes. -/
def SKILLS_DICT : List (String × List String) :=
  [("Programming Languages",
     ["Python", "R", "SQL", "Java", "Scala", "C++", "C#", "JavaScript", "Julia",
      "MATLAB", "SAS", "Perl", "Ruby", "Go", "Rust", "PHP", "VBA"]),
   ("Databases",
     ["MySQL", "PostgreSQL", "MongoDB", "Cassandra", "Redis", "Oracle",
      "SQL Server", "SQLite", "DynamoDB", "BigQuery", "Snowflake", "Redshift",
      "MariaDB", "Neo4j", "Elasticsearch", "Teradata"]),
   ("BI Tools",
     ["Tableau", "Power BI", "Looker", "QlikView", "Qlik Sense", "Sisense",
      "Domo", "Metabase", "Chartio", "Mode Analytics", "SAP BusinessObjects",
      "MicroStrategy", "Cognos", "OBIEE"]),
   ("Cloud Platforms",
     ["AWS", "Azure", "GCP", "Google Cloud", "IBM Cloud", "Oracle Cloud",
      "Databricks", "Snowflake", "Heroku", "DigitalOcean"]),
   ("Data Engineering",
     ["Spark", "Hadoop", "Kafka", "Airflow", "Hive", "Presto", "Flink",
      "Beam", "Luigi", "Prefect", "dbt", "Fivetran", "Talend", "Informatica",
      "NiFi", "Stitch", "Matillion"]),
   ("Machine Learning",
     ["TensorFlow", "PyTorch", "Keras", "Scikit-learn", "scikit-learn", "XGBoost", "LightGBM",
      "H2O", "MLflow", "Kubeflow", "SageMaker", "AutoML", "Random Forest",
      "Neural Network", "Deep Learning", "Machine Learning", "ML"]),
   ("Analytics Tools",
     ["Excel", "Google Sheets", "Jupyter", "RStudio", "Stata", "SPSS",
      "Alteryx", "Knime", "RapidMiner", "Google Analytics", "Mixpanel",
      "Amplitude", "Segment"]),
   ("Data Visualization",
     ["D3.js", "Plotly", "Matplotlib", "Seaborn", "ggplot2", "Bokeh",
      "Shiny", "Dash", "Streamlit", "Highcharts", "Chart.js"]),
   ("Version Control",
     ["Git", "GitHub", "GitLab", "Bitbucket", "SVN"]),
   ("Statistics",
     ["Statistics", "Statistical", "A/B Testing", "Hypothesis Testing", "Regression",
      "Time Series", "Bayesian", "Experimental Design", "Predictive Modeling",
      "Forecasting"]),
   ("Big Data",
     ["Big Data", "Data Lake", "Data Warehouse", "ETL", "ELT", "Data Pipeline"]),
   ("Other Skills",
     ["Docker", "Kubernetes", "Linux", "Bash", "API", "REST", "NoSQL",
      "Agile", "Scrum", "CI/CD", "Jenkins"])]

/-- The five salary-bearing fields a row presents to
`parse_salary_from_fields` (missing columns and NaN are both `vnull`). -/
structure SalaryRow where
  salary_low : Val
  salary_high : Val
  pay_low : Val
  pay_high : Val
  pay_period : Val
deriving DecidableEq

/-- The second half of `parse_salary_from_fields` (its "Try pay fields"
block followed by the final `return None, None, 'USD'`), factored out as
a named function so each fall-through target can be reasoned about; the
control flow is unchanged. -/
def paySection (row : SalaryRow) : Option ℚ × Option ℚ × String :=
  let pay_period := strLower (valStr row.pay_period)
  if notna row.pay_low && notna row.pay_high then
    match pyFloat? row.pay_low, pyFloat? row.pay_high with
    | some low, some high =>
      if strContainsSub pay_period "hour" then
        (some (low * 40 * 52), some (high * 40 * 52), "USD")
      else if strContainsSub pay_period "month" then
        (some (low * 12), some (high * 12), "USD")
      else
        (some low, some high, "USD")
    | _, _ => (none, none, "USD")
  else (none, none, "USD")

/-- `parse_salary_from_fields` of 02_clean_and_normalize_glassdoor.py.
The two `try: ... except: pass` blocks are rendered by matching on the
outcome of `float`: a parse failure anywhere in a block abandons that
block and control falls through to the next one. -/
def parse_salary_from_fields (row : SalaryRow) : Option ℚ × Option ℚ × String :=
  if notna row.salary_low && notna row.salary_high then
    match pyFloat? row.salary_low, pyFloat? row.salary_high with
    | some low, some high => (some low, some high, "USD")
    | _, _ => paySection row
  else paySection row

/-- The pay-fields block of `parse_salary_from_fields` with Python's
exception flow made explicit (see `parse_salary_run`). -/
def paySectionRun (row : SalaryRow) : Except String (Option ℚ × Option ℚ × String) :=
  let pay_period := strLower (valStr row.pay_period)
  if notna row.pay_low && notna row.pay_high then
    pyTry
      (match pyFloatE row.pay_low with
       | Except.error e => Except.error e
       | Except.ok low =>
         match pyFloatE row.pay_high with
         | Except.error e => Except.error e
         | Except.ok high =>
           if strContainsSub pay_period "hour" then
             Except.ok (some (low * 40 * 52), some (high * 40 * 52), "USD")
           else if strContainsSub pay_period "month" then
             Except.ok (some (low * 12), some (high * 12), "USD")
           else
             Except.ok (some low, some high, "USD"))
      (Except.ok (none, none, "USD"))
  else Except.ok (none, none, "USD")

/-- `parse_salary_from_fields` with Python's exception flow made explicit:
each `float` may raise, each `try` block is wrapped in `pyTry` whose
bare `except` swallows every exception, mirroring the source exactly. -/
def parse_salary_run (row : SalaryRow) : Except String (Option ℚ × Option ℚ × String) :=
  if notna row.salary_low && notna row.salary_high then
    pyTry
      (match pyFloatE row.salary_low with
       | Except.error e => Except.error e
       | Except.ok low =>
         match pyFloatE row.salary_high with
         | Except.error e => Except.error e
         | Except.ok high => Except.ok (some low, some high, "USD"))
      (paySectionRun row)
  else paySectionRun row

/-- The `any(keyword in location_str.lower() for keyword in REMOTE_KEYWORDS)`
test of `parse_location`, applied to the already-stripped string. -/
def isRemoteB (s : String) : Bool :=
  REMOTE_KEYWORDS.any (fun kw => strContainsSub (strLower s) kw)

/-- `parse_location` of 02_clean_and_normalize_glassdoor.py.  `none`
models a NaN cell (`pd.isna`); an empty string is NOT NaN and falls
through to the comma-split branch. -/
def parse_location (loc : Option String) : Option String × Option String × String × Bool :=
  match loc with
  | none => (none, none, "USA", false)
  | some raw =>
    let location_str := strStrip raw
    if isRemoteB location_str then
      (some "Remote", none, "USA", true)
    else
      match splitComma location_str with
      | city :: state :: _ =>
        (some (strStrip city), some (strStrip state), "USA", false)
      | _ => (some location_str, none, "USA", false)

/-- The shared loop shape of `derive_seniority`, `categorize_job_title`
and `get_skill_category`: walk the ordered rule table and return the
label of the FIRST entry whose trigger list passes `test`; return the
default when no entry passes. -/
def firstCat (test : List String → Bool) (table : List (String × List String)) (dflt : String) : String :=
  match table with
  | [] => dflt
  | (label, triggers) :: rest =>
    if test triggers then label else firstCat test rest dflt

/-- `derive_seniority` of 02_clean_and_normalize_glassdoor.py. -/
def derive_seniority (job_title : Option String) : String :=
  match job_title with
  | none => "Mid-level"
  | some t =>
    firstCat (fun kws => kws.any (fun kw => strContainsSub (strLower t) kw))
      SENIORITY_KEYWORDS "Mid-level"

/-- `categorize_job_title` of 02_clean_and_normalize_glassdoor.py. -/
def categorize_job_title (job_title : Option String) : String :=
  match job_title with
  | none => "Other"
  | some t =>
    firstCat (fun kws => kws.any (fun kw => strContainsSub (strLower t) kw))
      JOB_TITLE_GROUPS "Other"

/-- One probe of `extract_skills_from_description`:
`re.search(r'\b' + re.escape(skill.lower()) + r'\b', description.lower())`. -/
def skillMatches (skill description : String) : Bool :=
  wbSearch (strLower skill).toList (strLower description).toList

/-- The `found_skills` list of `extract_skills_from_description` before
deduplication: every taxonomy skill whose pattern fires, in taxonomy
declaration order (a skill listed under two categories occurs twice). -/
def foundSkills (description : String) : List String :=
  (SKILLS_DICT.map (fun p => p.2.filter (fun sk => skillMatches sk description))).flatten

/-- Python `list(set(xs))` for a list of strings.  The members are exactly
the distinct elements of `xs`; their ORDER is the hash-table iteration
order of the runtime, which depends on the per-process string-hash salt.
That runtime order is abstracted as the `rank` parameter: the distinct
elements are emitted sorted by their (salted) rank. -/
def pySetList (rank : String → Nat) (xs : List String) : List String :=
  insSort (fun a b => decide (rank a ≤ rank b)) (firstDedup xs)

/-- `extract_skills_from_description` of 02_clean_and_normalize_glassdoor.py,
parameterized by the process's string-hash rank (see `pySetList`). -/
def extract_skills (rank : String → Nat) (description : Option String) : List String :=
  match description with
  | none => []
  | some d => pySetList rank (foundSkills d)

/-- `get_skill_category` of 02_clean_and_normalize_glassdoor.py (defined
inside `main`): first taxonomy category whose list contains the skill,
else `'Other'`. -/
def get_skill_category (skill : String) : String :=
  firstCat (fun skills => skills.contains skill) SKILLS_DICT "Other"

/-- An enriched posting as it stands right before the dimension tables are
built: the derived columns that the dimension builders and the fact
assembler read. -/
structure Posting where
  job_title : Option String
  job_category : String
  seniority_level : String
  company_name : Option String
  company_rating : Option ℚ
  city : Option String
  state : Option String
  country : String
  is_remote : Bool
  skills_list : List String
  salary_min : Option ℚ
  salary_max : Option ℚ
  salary_currency : String
deriving DecidableEq

/-- Natural key of `dim_job`: the `['job_title', 'job_category',
'seniority_level']` projection that `drop_duplicates()` dedups on. -/
def jobKey (p : Posting) : Option String × String × String :=
  (p.job_title, p.job_category, p.seniority_level)

/-- Natural key of `dim_location`: `['city', 'state', 'country', 'is_remote']`. -/
def locKey (p : Posting) : Option String × Option String × String × Bool :=
  (p.city, p.state, p.country, p.is_remote)

/-- The `dim_company` row projection (company_name first, then the
descriptive attributes; `company_rating` stands for the descriptive
columns of the source). -/
def compRow (p : Posting) : Option String × Option ℚ :=
  (p.company_name, p.company_rating)

/-- The `region` column added to `dim_location`:
`'Northeast' if x in ['NY', 'MA', 'PA', 'NJ'] else 'Other'`. -/
def regionOf (st : Option String) : String :=
  if st = some "NY" ∨ st = some "MA" ∨ st = some "PA" ∨ st = some "NJ" then "Northeast"
  else "Other"

/-- `dim_job`: drop_duplicates over the whole key projection, keeping
first occurrences, then dense surrogate keys from 1. -/
def dimJob (rows : List Posting) : List (Nat × (Option String × String × String)) :=
  withIds (firstDedup (rows.map jobKey))

/-- `dim_company`: drop_duplicates(subset=['company_name']) keeping the
first row per name, then dense surrogate keys from 1. -/
def dimCompany (rows : List Posting) : List (Nat × (Option String × Option ℚ)) :=
  withIds (dropDupFirstBy Prod.fst (rows.map compRow))

/-- `dim_location`: drop_duplicates over the four-column key, dense keys
from 1, then the derived `region` column appended. -/
def dimLocation (rows : List Posting) :
    List (Nat × ((Option String × Option String × String × Bool) × String)) :=
  (withIds (firstDedup (rows.map locKey))).map (fun r => (r.1, (r.2, regionOf r.2.2.1)))

/-- The hardcoded `dim_employment_type` table. -/
def dimEmploymentType : List (Nat × String × String) :=
  [(1, "Full-time", "On-site"), (2, "Contract", "Remote"), (3, "Internship", "Hybrid")]

/-- `dim_skill`: `sorted(set(all_skills))` (lexicographically sorted
distinct skill names from the union of all matched skill lists), dense
keys from 1, with the taxonomy category looked up per name. -/
def dimSkill (rows : List Posting) : List (Nat × (String × String)) :=
  withIds ((insSort strLeB (firstDedup ((rows.map Posting.skills_list).flatten))).map
    (fun s => (s, get_skill_category s)))

/-- The skill-name column of `dim_skill`. -/
def dimSkillNames (rows : List Posting) : List String :=
  (dimSkill rows).map (fun r => r.2.1)

/-- A `how='left'` merge against a dimension whose payload is keyed by
`key`, observed per fact row: the surrogate key of the unique matching
dimension row, or an explicit null when no row matches.  (The dimension
tables built above are key-unique, so the pandas merge adds exactly one
id column value per left row, which is what this lookup returns.) -/
def findIdBy [DecidableEq K] (key : β → K) (dim : List (Nat × β)) (k : K) : Option Nat :=
  (dim.find? (fun r => decide (key r.2 = k))).map Prod.fst

/-- One row of `fact_posting` (the `fact_cols` selection of the source). -/
structure FactRow where
  posting_id : Nat
  job_id : Option Nat
  company_id : Option Nat
  location_id : Option Nat
  salary_min : Option ℚ
  salary_max : Option ℚ
  salary_currency : String
  employment_type_id : Nat
deriving DecidableEq

/-- The fact-table assembly of `main`: `posting_id = range(1, len(df)+1)`
in input order, then left merges against `dim_job`, `dim_company` and
`dim_location` on their natural keys, and the constant
`employment_type_id = 1`. -/
def assembleFact (rows : List Posting) : List FactRow :=
  let dj := dimJob rows
  let dc := dimCompany rows
  let dl := dimLocation rows
  (withIds rows).map (fun pr =>
    { posting_id := pr.1
      job_id := findIdBy id dj (jobKey pr.2)
      company_id := findIdBy Prod.fst dc pr.2.company_name
      location_id := findIdBy Prod.fst dl (locKey pr.2)
      salary_min := pr.2.salary_min
      salary_max := pr.2.salary_max
      salary_currency := pr.2.salary_currency
      employment_type_id := 1 })

/-- The `dim_skill[dim_skill['skill_name'] == skill]['skill_id'].values[0]`
lookup of the bridge-building loop (every skill in a posting's
`skills_list` is in `dim_skill` by construction, so the lookup finds a
row; the `getD` default is never reached on the pipeline's own data). -/
def skillIdOf (ds : List (Nat × (String × String))) (skill : String) : Nat :=
  (findIdBy Prod.fst ds skill).getD 0

/-- `bridge_posting_skill`: for each posting in order, one
`(posting_id, skill_id)` row per entry of its `skills_list`, in list
order. -/
def bridgeRows (rows : List Posting) : List (Nat × Nat) :=
  let ds := dimSkill rows
  ((withIds rows).map (fun pr => pr.2.skills_list.map (fun s => (pr.1, skillIdOf ds s)))).flatten

/-- A concrete enriched posting used to instantiate the theorems below on
explicit inputs; only `skills_list` varies. -/
def mkSkillPosting (sl : List String) : Posting :=
  { job_title := some "Data Analyst", job_category := "Data Analyst",
    seniority_level := "Mid-level", company_name := some "TechCo",
    company_rating := none, city := some "New York", state := some "NY",
    country := "USA", is_remote := false, skills_list := sl,
    salary_min := none, salary_max := none, salary_currency := "USD" }

/-- A two-posting collection in which the skill "SQL" first occurs before
the skill "Python". -/
def cexRows : List Posting := [mkSkillPosting ["SQL"], mkSkillPosting ["Python"]]

/-- One possible per-process string-hash rank (runs of Python salt the
string hash per process; this models one such process). -/
def hashSeedA : String → Nat := String.length

/-- Another possible per-process string-hash rank. -/
def hashSeedB : String → Nat := fun _ => 0

/-- A description matching exactly the two skills "Python" and "SQL". -/
def c7Desc : String := "Python and SQL"

/-- The single fact row `assembleFact cexRows` produces for the first
posting of `cexRows`. -/
def c2F0 : FactRow :=
  { posting_id := 1, job_id := some 1, company_id := some 1, location_id := some 1,
    salary_min := none, salary_max := none, salary_currency := "USD",
    employment_type_id := 1 }

/-- A job natural key that occurs in no posting of `cexRows`. -/
def c2MissingKey : Option String × String × String :=
  (some "Underwater Basket Weaver", "Other", "Mid-level")

/-! ### Generic list lemmas for the embedding -/

/-- Inserting with `insertLe` permutes `a :: l`. -/
theorem insertLe_perm (le : α → α → Bool) (a : α) (l : List α) :
    (insertLe le a l).Perm (a :: l) := by
  induction l with
  | nil => simp [insertLe]
  | cons b bs ih =>
    by_cases h : le a b = true
    · simp [insertLe, h]
    · simp only [insertLe, h, if_false, Bool.false_eq_true, if_neg, ite_false]
      exact (ih.cons b).trans (List.Perm.swap a b bs)

/-- Insertion sort permutes its input. -/
theorem insSort_perm (le : α → α → Bool) (l : List α) : (insSort le l).Perm l := by
  induction l with
  | nil => simp [insSort]
  | cons a as ih => exact (insertLe_perm le a (insSort le as)).trans (ih.cons a)

/-- `insertLe` preserves sortedness for a total, transitive comparison. -/
theorem pairwise_insertLe (le : α → α → Bool)
    (htot : ∀ x y, le x y = false → le y x = true)
    (htrans : ∀ x y z, le x y = true → le y z = true → le x z = true)
    (a : α) (l : List α) (hs : l.Pairwise (fun x y => le x y = true)) :
    (insertLe le a l).Pairwise (fun x y => le x y = true) := by
  induction l with
  | nil => simp [insertLe]
  | cons b bs ih =>
    rcases List.pairwise_cons.mp hs with ⟨hb, hbs⟩
    by_cases h : le a b = true
    · simp only [insertLe, h, if_true, ite_true]
      refine List.pairwise_cons.mpr ⟨?_, hs⟩
      intro y hy
      rcases List.mem_cons.mp hy with rfl | hy2
      · exact h
      · exact htrans a b y h (hb y hy2)
    · have hf : le a b = false := by simpa using h
      simp only [insertLe, h, if_false, Bool.false_eq_true, ite_false]
      refine List.pairwise_cons.mpr ⟨?_, ih hbs⟩
      intro y hy
      rcases List.mem_cons.mp ((insertLe_perm le a bs).mem_iff.mp hy) with rfl | hy2
      · exact htot _ _ hf
      · exact hb y hy2

/-- Insertion sort sorts, for a total, transitive comparison. -/
theorem pairwise_insSort (le : α → α → Bool)
    (htot : ∀ x y, le x y = false → le y x = true)
    (htrans : ∀ x y z, le x y = true → le y z = true → le x z = true)
    (l : List α) : (insSort le l).Pairwise (fun x y => le x y = true) := by
  induction l with
  | nil => simp [insSort]
  | cons a as ih => exact pairwise_insertLe le htot htrans a _ ih

/-- Totality of the lexicographic comparison on code-point lists. -/
theorem charListLe_total : ∀ a b : List Char, charListLe a b = false → charListLe b a = true := by
  intro a
  induction a with
  | nil => intro b h; simp [charListLe] at h
  | cons x xs ih =>
    intro b h
    cases b with
    | nil => simp [charListLe]
    | cons y ys =>
      simp only [charListLe] at h ⊢
      by_cases hxy : x.toNat = y.toNat
      · rw [if_pos hxy] at h
        rw [if_pos hxy.symm]
        exact ih ys h
      · rw [if_neg hxy] at h
        have hnlt : ¬ x.toNat < y.toNat := by simpa using h
        rw [if_neg (fun hyx => hxy hyx.symm)]
        have : y.toNat < x.toNat := by omega
        simpa using this

/-- Transitivity of the lexicographic comparison on code-point lists. -/
theorem charListLe_trans :
    ∀ a b c : List Char, charListLe a b = true → charListLe b c = true → charListLe a c = true := by
  intro a
  induction a with
  | nil => intro b c _ _; simp [charListLe]
  | cons x xs ih =>
    intro b c hab hbc
    cases b with
    | nil => simp [charListLe] at hab
    | cons y ys =>
      cases c with
      | nil => simp [charListLe] at hbc
      | cons z zs =>
        simp only [charListLe] at hab hbc ⊢
        by_cases hxy : x.toNat = y.toNat
        · rw [if_pos hxy] at hab
          by_cases hyz : y.toNat = z.toNat
          · rw [if_pos hyz] at hbc
            rw [if_pos (hxy.trans hyz)]
            exact ih ys zs hab hbc
          · rw [if_neg hyz] at hbc
            have h2 : y.toNat < z.toNat := by simpa using hbc
            rw [if_neg (by omega)]
            simp
            omega
        · rw [if_neg hxy] at hab
          have h1 : x.toNat < y.toNat := by simpa using hab
          by_cases hyz : y.toNat = z.toNat
          · rw [if_neg (by omega)]
            simp
            omega
          · rw [if_neg hyz] at hbc
            have h2 : y.toNat < z.toNat := by simpa using hbc
            rw [if_neg (by omega)]
            simp
            omega

/-- Totality of Python's string order. -/
theorem strLeB_total : ∀ a b : String, strLeB a b = false → strLeB b a = true :=
  fun a b h => charListLe_total a.toList b.toList h

/-- Transitivity of Python's string order. -/
theorem strLeB_trans :
    ∀ a b c : String, strLeB a b = true → strLeB b c = true → strLeB a c = true :=
  fun a b c hab hbc => charListLe_trans a.toList b.toList c.toList hab hbc

/-- Membership in the accumulator form of first-occurrence dedup. -/
theorem mem_firstDedupAux [DecidableEq α] (seen : List α) (l : List α) (x : α) :
    x ∈ firstDedupAux seen l ↔ x ∈ l ∧ x ∉ seen := by
  induction l generalizing seen with
  | nil => simp [firstDedupAux]
  | cons a as ih =>
    by_cases h : seen.any (fun y => decide (y = a)) = true
    · have ha : a ∈ seen := by
        rcases List.any_eq_true.mp h with ⟨y, hy, hd⟩
        have : y = a := of_decide_eq_true hd
        exact this ▸ hy
      simp only [firstDedupAux, h, if_true, ite_true, ih seen, List.mem_cons]
      constructor
      · rintro ⟨h1, h2⟩
        exact ⟨Or.inr h1, h2⟩
      · rintro ⟨h1, h2⟩
        rcases h1 with rfl | h1
        · exact absurd ha h2
        · exact ⟨h1, h2⟩
    · have ha : a ∉ seen := by
        intro hmem
        exact h (List.any_eq_true.mpr ⟨a, hmem, by simp⟩)
      simp only [firstDedupAux, h, if_false, Bool.false_eq_true, ite_false, List.mem_cons,
        ih (a :: seen)]
      constructor
      · rintro (rfl | ⟨h1, h2⟩)
        · exact ⟨Or.inl rfl, ha⟩
        · exact ⟨Or.inr h1, fun hx => h2 (Or.inr hx)⟩
      · rintro ⟨h1, h2⟩
        rcases h1 with rfl | h1
        · exact Or.inl rfl
        · by_cases hxa : x = a
          · exact Or.inl hxa
          · exact Or.inr ⟨h1, by simp [hxa, h2]⟩

/-- Membership in first-occurrence dedup. -/
theorem mem_firstDedup [DecidableEq α] (l : List α) (x : α) :
    x ∈ firstDedup l ↔ x ∈ l := by
  unfold firstDedup
  rw [mem_firstDedupAux]
  simp

/-- First-occurrence dedup never repeats an element. -/
theorem nodup_firstDedupAux [DecidableEq α] (seen : List α) (l : List α) :
    (firstDedupAux seen l).Nodup := by
  induction l generalizing seen with
  | nil => simp [firstDedupAux]
  | cons a as ih =>
    by_cases h : seen.any (fun y => decide (y = a)) = true
    · simpa only [firstDedupAux, h, if_true, ite_true] using ih seen
    · simp only [firstDedupAux, h, if_false, Bool.false_eq_true, ite_false]
      refine List.nodup_cons.mpr ⟨?_, ih (a :: seen)⟩
      intro hmem
      exact ((mem_firstDedupAux _ _ _).mp hmem).2 (List.mem_cons_self a seen)

/-- First-occurrence dedup never repeats an element. -/
theorem nodup_firstDedup [DecidableEq α] (l : List α) : (firstDedup l).Nodup :=
  nodup_firstDedupAux [] l

/-- First-occurrence dedup has one entry per distinct element of the
input. -/
theorem length_firstDedup [DecidableEq α] (l : List α) :
    (firstDedup l).length = l.dedup.length := by
  have h1 : (firstDedup l).Nodup := nodup_firstDedup l
  have h2 : l.dedup.Nodup := List.nodup_dedup l
  have hfin : (firstDedup l).toFinset = l.dedup.toFinset := by
    ext x
    simp [List.mem_toFinset, mem_firstDedup, List.mem_dedup]
  calc (firstDedup l).length
      = (firstDedup l).toFinset.card := (List.toFinset_card_of_nodup h1).symm
    _ = l.dedup.toFinset.card := by rw [hfin]
    _ = l.dedup.length := List.toFinset_card_of_nodup h2

/-- Keyed first-row dedup projects to first-occurrence dedup of the keys. -/
theorem map_key_dropDupFirstByAux [DecidableEq K] (key : α → K) (seen : List K) (l : List α) :
    (dropDupFirstByAux key seen l).map key = firstDedupAux seen (l.map key) := by
  induction l generalizing seen with
  | nil => simp [dropDupFirstByAux, firstDedupAux]
  | cons r rs ih =>
    by_cases h : seen.any (fun x => decide (x = key r)) = true
    · simp only [dropDupFirstByAux, List.map_cons, firstDedupAux, h, if_true, ite_true]
      exact ih seen
    · simp only [dropDupFirstByAux, List.map_cons, firstDedupAux, h, if_false,
        Bool.false_eq_true, ite_false, List.map_cons]
      rw [ih (key r :: seen)]

/-- Keyed first-row dedup projects to first-occurrence dedup of the keys. -/
theorem map_key_dropDupFirstBy [DecidableEq K] (key : α → K) (l : List α) :
    (dropDupFirstBy key l).map key = firstDedup (l.map key) :=
  map_key_dropDupFirstByAux key [] l

/-- The id column of `withIds` is the dense sequence 1..N. -/
theorem map_fst_withIds (xs : List α) :
    (withIds xs).map Prod.fst = List.range' 1 xs.length := by
  unfold withIds
  exact List.map_fst_zip _ _ (by simp [List.length_range'])

/-- The payload column of `withIds` is the input list. -/
theorem map_snd_withIds (xs : List α) : (withIds xs).map Prod.snd = xs := by
  unfold withIds
  exact List.map_snd_zip _ _ (by simp [List.length_range'])

/-- `withIds` has one entry per input element. -/
theorem length_withIds (xs : List α) : (withIds xs).length = xs.length := by
  have := congrArg List.length (map_snd_withIds xs)
  simpa using this

/-- Mapping a function of the payload over `withIds`. -/
theorem map_payload_withIds (f : α → β) (xs : List α) :
    (withIds xs).map (fun r => f r.2) = xs.map f := by
  have h : (fun r : Nat × α => f r.2) = f ∘ Prod.snd := rfl
  rw [h, ← List.map_map, map_snd_withIds]

/-- The ids of `withIds` are strictly increasing pairwise. -/
theorem pairwise_fst_lt_withIds (xs : List α) :
    (withIds xs).Pairwise (fun a b => a.1 < b.1) := by
  have h : ((withIds xs).map Prod.fst).Pairwise (fun a b => a < b) := by
    rw [map_fst_withIds]
    exact List.pairwise_lt_range' 1 xs.length
  exact List.pairwise_map.mp h

/-- Membership in the payload of `withIds`. -/
theorem mem_snd_withIds (xs : List α) (pr : Nat × α) (h : pr ∈ withIds xs) : pr.2 ∈ xs := by
  have := List.of_mem_zip (a := pr.1) (b := pr.2) (by simpa using h)
  exact this.2

/-! ### Rule-table, extraction and lookup lemmas -/

/-- First-match specification of the shared classifier loop: if entry `p`
sits at index `i`, its triggers pass, and no earlier entry's triggers
pass, then the loop returns `p`'s label. -/
theorem firstCat_first (test : List String → Bool) (dflt : String) :
    ∀ (table : List (String × List String)) (i : Nat) (p : String × List String),
      table.get? i = some p → test p.2 = true →
      (table.take i).all (fun q => !(test q.2)) = true →
      firstCat test table dflt = p.1 := by
  intro table
  induction table with
  | nil => intro i p h _ _; simp [List.get?] at h
  | cons e rest ih =>
    intro i p hget htest hall
    cases i with
    | zero =>
      have he : e = p := by simpa [List.get?] using hget
      subst he
      obtain ⟨label, triggers⟩ := e
      simp only [firstCat]
      rw [if_pos htest]
    | succ n =>
      have hne : test e.2 = false ∧ (rest.take n).all (fun q => !(test q.2)) = true := by
        have h1 : (e :: rest).take (n + 1) = e :: rest.take n := rfl
        rw [h1, List.all_cons, Bool.and_eq_true] at hall
        exact ⟨by simpa using hall.1, hall.2⟩
      obtain ⟨label, triggers⟩ := e
      simp only [firstCat]
      rw [if_neg (by simp [hne.1])]
      exact ih n p (by simpa [List.get?] using hget) htest hne.2

/-- When no entry's triggers pass, the classifier loop returns its
default. -/
theorem firstCat_default (test : List String → Bool) (dflt : String) :
    ∀ table : List (String × List String),
      table.all (fun q => !(test q.2)) = true → firstCat test table dflt = dflt := by
  intro table
  induction table with
  | nil => intro _; rfl
  | cons e rest ih =>
    intro hall
    rw [List.all_cons, Bool.and_eq_true] at hall
    obtain ⟨label, triggers⟩ := e
    simp only [firstCat]
    rw [if_neg (by simpa using hall.1)]
    exact ih hall.2

/-- When some entry's triggers pass, the classifier loop returns one of
the table's labels. -/
theorem firstCat_mem_labels (test : List String → Bool) (dflt : String) :
    ∀ table : List (String × List String),
      (∃ p ∈ table, test p.2 = true) → firstCat test table dflt ∈ table.map Prod.fst := by
  intro table
  induction table with
  | nil => rintro ⟨p, hp, _⟩; simp at hp
  | cons e rest ih =>
    rintro ⟨p, hp, htest⟩
    obtain ⟨label, triggers⟩ := e
    by_cases h : test triggers = true
    · simp only [firstCat]
      rw [if_pos h]
      simp
    · simp only [firstCat]
      rw [if_neg h]
      rcases List.mem_cons.mp hp with rfl | hp2
      · exact absurd htest (by simpa using h)
      · exact List.mem_cons_of_mem _ (ih ⟨p, hp2, htest⟩)

/-- Membership in Python's `list(set(xs))` is membership in `xs`,
whatever the process hash order. -/
theorem mem_pySetList (rank : String → Nat) (xs : List String) (x : String) :
    x ∈ pySetList rank xs ↔ x ∈ xs := by
  unfold pySetList
  rw [(insSort_perm _ _).mem_iff, mem_firstDedup]

/-- Python's `list(set(xs))` never repeats an element. -/
theorem nodup_pySetList (rank : String → Nat) (xs : List String) :
    (pySetList rank xs).Nodup := by
  unfold pySetList
  rw [(insSort_perm _ _).nodup_iff]
  exact nodup_firstDedup xs

/-- Membership in `found_skills`: exactly the taxonomy skills whose
word-boundary pattern fires on the description. -/
theorem mem_foundSkills (d s : String) :
    s ∈ foundSkills d ↔ ∃ p, p ∈ SKILLS_DICT ∧ s ∈ p.2 ∧ skillMatches s d = true := by
  unfold foundSkills
  rw [List.mem_flatten]
  constructor
  · rintro ⟨l, hl, hs⟩
    rcases List.mem_map.mp hl with ⟨p, hp, rfl⟩
    rcases List.mem_filter.mp hs with ⟨hmem, hmatch⟩
    exact ⟨p, hp, hmem, hmatch⟩
  · rintro ⟨p, hp, hmem, hmatch⟩
    exact ⟨p.2.filter (fun sk => skillMatches sk d), List.mem_map.mpr ⟨p, hp, rfl⟩,
      List.mem_filter.mpr ⟨hmem, hmatch⟩⟩

/-- Membership in the extracted skill list: the description is present and
the skill is a taxonomy skill whose pattern fires on it; this holds for
every process hash order `rank`. -/
theorem mem_extract_skills (rank : String → Nat) (od : Option String) (s : String) :
    s ∈ extract_skills rank od ↔
      ∃ d, od = some d ∧ ∃ p, p ∈ SKILLS_DICT ∧ s ∈ p.2 ∧ skillMatches s d = true := by
  cases od with
  | none => simp [extract_skills]
  | some d => simp [extract_skills, mem_pySetList, mem_foundSkills]

/-- The skill extractor never repeats a skill. -/
theorem nodup_extract_skills (rank : String → Nat) (od : Option String) :
    (extract_skills rank od).Nodup := by
  cases od with
  | none => simp [extract_skills]
  | some d => exact nodup_pySetList rank (foundSkills d)

/-- A successful dimension lookup returns a surrogate key present in the
dimension's id column. -/
theorem findIdBy_mem [DecidableEq K] (key : β → K) (dim : List (Nat × β)) (k : K) (i : Nat)
    (h : findIdBy key dim k = some i) : i ∈ dim.map Prod.fst := by
  unfold findIdBy at h
  cases hf : dim.find? (fun r => decide (key r.2 = k)) with
  | none => rw [hf] at h; simp at h
  | some r =>
    rw [hf] at h
    simp at h
    have hr := List.mem_of_find?_eq_some hf
    exact List.mem_map.mpr ⟨r, hr, by simpa using h⟩

/-- A dimension lookup on a key carried by no dimension row yields an
explicit null, not an error and not a fabricated key. -/
theorem findIdBy_eq_none [DecidableEq K] (key : β → K) (dim : List (Nat × β)) (k : K)
    (h : ∀ r ∈ dim, key r.2 ≠ k) : findIdBy key dim k = none := by
  unfold findIdBy
  rw [List.find?_eq_none.mpr (fun r hr => by simpa using h r hr)]
  rfl

/-- A dimension lookup on a key some dimension row carries succeeds. -/
theorem findIdBy_isSome [DecidableEq K] (key : β → K) (dim : List (Nat × β)) (k : K)
    (h : ∃ r ∈ dim, key r.2 = k) : ∃ i, findIdBy key dim k = some i := by
  unfold findIdBy
  rcases h with ⟨r, hr, hk⟩
  have h2 : (dim.find? (fun r => decide (key r.2 = k))).isSome = true :=
    List.find?_isSome.mpr ⟨r, hr, by simpa using hk⟩
  cases hf : dim.find? (fun r => decide (key r.2 = k)) with
  | none => rw [hf] at h2; simp at h2
  | some r0 => exact ⟨r0.1, rfl⟩

/-- A successful dimension lookup names the (unique) row carrying the
looked-up key. -/
theorem findIdBy_spec [DecidableEq K] (key : β → K) (dim : List (Nat × β)) (k : K) (i : Nat)
    (h : findIdBy key dim k = some i) : ∃ r ∈ dim, r.1 = i ∧ key r.2 = k := by
  unfold findIdBy at h
  cases hf : dim.find? (fun r => decide (key r.2 = k)) with
  | none => rw [hf] at h; simp at h
  | some r =>
    rw [hf] at h
    simp at h
    exact ⟨r, List.mem_of_find?_eq_some hf, h, by simpa using List.find?_some hf⟩

/-- The skill-name column of `dim_skill` is the sorted first-occurrence
dedup of all matched skills. -/
theorem dimSkillNames_eq (rows : List Posting) :
    dimSkillNames rows = insSort strLeB (firstDedup ((rows.map Posting.skills_list).flatten)) := by
  unfold dimSkillNames dimSkill
  rw [map_payload_withIds (fun y : String × String => y.1), List.map_map]
  exact List.map_id _

/-- The skill-name column of `dim_skill` has no duplicates. -/
theorem nodup_dimSkillNames (rows : List Posting) : (dimSkillNames rows).Nodup := by
  rw [dimSkillNames_eq, (insSort_perm _ _).nodup_iff]
  exact nodup_firstDedup _

/-- The skill-name column of `dim_skill` carries exactly the skills
matched somewhere in the collection. -/
theorem mem_dimSkillNames (rows : List Posting) (s : String) :
    s ∈ dimSkillNames rows ↔ s ∈ (rows.map Posting.skills_list).flatten := by
  rw [dimSkillNames_eq, (insSort_perm _ _).mem_iff, mem_firstDedup]

/-- Any skill of any posting's skill list appears in `dim_skill`. -/
theorem mem_dimSkillNames_of (rows : List Posting) (p : Posting) (s : String)
    (hp : p ∈ rows) (hs : s ∈ p.skills_list) : s ∈ dimSkillNames rows := by
  rw [mem_dimSkillNames]
  exact List.mem_flatten.mpr ⟨p.skills_list, List.mem_map.mpr ⟨p, hp, rfl⟩, hs⟩

/-- The id column of `dim_skill` has no duplicates. -/
theorem nodup_fst_dimSkill (rows : List Posting) :
    ((dimSkill rows).map Prod.fst).Nodup := by
  unfold dimSkill
  rw [map_fst_withIds]
  exact List.nodup_range' _ _

/-- The bridge lookup `skillIdOf` is injective on the skill names present
in `dim_skill`. -/
theorem skillIdOf_inj (rows : List Posting) (s1 s2 : String)
    (h1 : s1 ∈ dimSkillNames rows) (h2 : s2 ∈ dimSkillNames rows)
    (heq : skillIdOf (dimSkill rows) s1 = skillIdOf (dimSkill rows) s2) : s1 = s2 := by
  unfold dimSkillNames at h1 h2
  rcases List.mem_map.mp h1 with ⟨r1, hr1, hs1⟩
  rcases List.mem_map.mp h2 with ⟨r2, hr2, hs2⟩
  obtain ⟨i1, hi1⟩ := findIdBy_isSome Prod.fst (dimSkill rows) s1 ⟨r1, hr1, hs1⟩
  obtain ⟨i2, hi2⟩ := findIdBy_isSome Prod.fst (dimSkill rows) s2 ⟨r2, hr2, hs2⟩
  obtain ⟨q1, hq1, hq1i, hq1k⟩ := findIdBy_spec _ _ _ _ hi1
  obtain ⟨q2, hq2, hq2i, hq2k⟩ := findIdBy_spec _ _ _ _ hi2
  have e1 : skillIdOf (dimSkill rows) s1 = i1 := by unfold skillIdOf; rw [hi1]; rfl
  have e2 : skillIdOf (dimSkill rows) s2 = i2 := by unfold skillIdOf; rw [hi2]; rfl
  have hi : i1 = i2 := by rw [← e1, ← e2, heq]
  have hq12 : q1 = q2 :=
    List.inj_on_of_nodup_map (nodup_fst_dimSkill rows) hq1 hq2 (by rw [hq1i, hq2i, hi])
  rw [← hq1k, ← hq2k, hq12]

/-- A value `float` accepts is not NaN/None. -/
theorem notna_of_pyFloat (v : Val) (q : ℚ) (h : pyFloat? v = some q) : notna v = true := by
  cases v <;> simp_all [pyFloat?, notna]

/-- When either annual salary field fails to parse, the annual branch is
skipped and the pay branch decides the result. -/
theorem parse_salary_skip (row : SalaryRow)
    (h : pyFloat? row.salary_low = none ∨ pyFloat? row.salary_high = none) :
    parse_salary_from_fields row = paySection row := by
  unfold parse_salary_from_fields
  by_cases hb : (notna row.salary_low && notna row.salary_high) = true
  · rw [if_pos hb]
    cases hl : pyFloat? row.salary_low with
    | none => rfl
    | some l =>
      cases hh : pyFloat? row.salary_high with
      | none => rfl
      | some hq =>
        exfalso
        rcases h with h | h
        · rw [h] at hl; exact Option.noConfusion hl
        · rw [h] at hh; exact Option.noConfusion hh
  · rw [if_neg hb]

/-- The exception-explicit rendering of the salary parser always returns
normally, with the same value as the pure rendering: the bare `except`
clauses swallow every parse failure. -/
theorem parse_salary_run_eq (row : SalaryRow) :
    parse_salary_run row = Except.ok (parse_salary_from_fields row) := by
  unfold parse_salary_run parse_salary_from_fields paySectionRun paySection pyTry pyFloatE
  cases hl : pyFloat? row.salary_low <;> cases hh : pyFloat? row.salary_high <;>
    cases hpl : pyFloat? row.pay_low <;> cases hph : pyFloat? row.pay_high <;>
      simp [hl, hh, hpl, hph] <;> split_ifs <;> rfl

/-- The posting_id column of the fact table is the dense sequence 1..M in
input order. -/
theorem map_postingId_assembleFact (rows : List Posting) :
    (assembleFact rows).map FactRow.posting_id = List.range' 1 rows.length := by
  unfold assembleFact
  rw [List.map_map]
  exact map_fst_withIds rows

/-- The bridge table never repeats a `(posting_id, skill_id)` pair when
every posting's skill list is duplicate-free. -/
theorem nodup_bridgeRows (rows : List Posting) (h : ∀ p ∈ rows, p.skills_list.Nodup) :
    (bridgeRows rows).Nodup := by
  unfold bridgeRows
  rw [List.nodup_flatten]
  constructor
  · intro l hl
    rcases List.mem_map.mp hl with ⟨pr, hpr, rfl⟩
    have hp : pr.2 ∈ rows := mem_snd_withIds rows pr hpr
    refine List.Nodup.map_on ?_ (h pr.2 hp)
    intro x hx y hy hxy
    have hid : skillIdOf (dimSkill rows) x = skillIdOf (dimSkill rows) y := by
      simpa using congrArg Prod.snd hxy
    exact skillIdOf_inj rows x y (mem_dimSkillNames_of rows pr.2 x hp hx)
      (mem_dimSkillNames_of rows pr.2 y hp hy) hid
  · rw [List.pairwise_map]
    refine (pairwise_fst_lt_withIds rows).imp ?_
    intro a b hab
    intro x hxa hxb
    rcases List.mem_map.mp hxa with ⟨s, _, rfl⟩
    rcases List.mem_map.mp hxb with ⟨t, _, heq⟩
    have hfst := congrArg Prod.fst heq
    simp at hfst
    omega

/-- The bridge table has exactly one row per (posting, listed skill). -/
theorem length_bridgeRows (rows : List Posting) :
    (bridgeRows rows).length = (rows.map (fun p => p.skills_list.length)).sum := by
  unfold bridgeRows
  simp only [List.length_flatten, List.map_map, Function.comp_def, List.length_map]
  exact congrArg List.sum (map_payload_withIds (fun p : Posting => p.skills_list.length) rows)

/-! ### Claim theorems -/

/-- C3: the salary normalizer applies its branches in strict priority
order.  If both annual salary fields parse, they are returned directly
with currency "USD"; otherwise, if both periodic pay fields parse, they
are scaled by 40×52 when the lowercased pay period contains "hour", by
12 when it (does not contain "hour" but) contains "month", and returned
unchanged for any other period; otherwise the result is
(null, null, "USD").  In particular annual (50000, 70000) gives
(50000.0, 70000.0, "USD") and hourly (25, 35) with period "Hourly"
gives (52000.0, 72800.0, "USD"). -/
theorem c3_salary_branch_priority :
    (∀ row : SalaryRow, ∀ l h : ℚ, pyFloat? row.salary_low = some l →
       pyFloat? row.salary_high = some h →
       parse_salary_from_fields row = (some l, some h, "USD"))
  ∧ (∀ row : SalaryRow, ∀ l h : ℚ,
       (pyFloat? row.salary_low = none ∨ pyFloat? row.salary_high = none) →
       pyFloat? row.pay_low = some l → pyFloat? row.pay_high = some h →
       (strContainsSub (strLower (valStr row.pay_period)) "hour" = true →
          parse_salary_from_fields row = (some (l * 40 * 52), some (h * 40 * 52), "USD"))
       ∧ (strContainsSub (strLower (valStr row.pay_period)) "hour" = false →
          strContainsSub (strLower (valStr row.pay_period)) "month" = true →
          parse_salary_from_fields row = (some (l * 12), some (h * 12), "USD"))
       ∧ (strContainsSub (strLower (valStr row.pay_period)) "hour" = false →
          strContainsSub (strLower (valStr row.pay_period)) "month" = false →
          parse_salary_from_fields row = (some l, some h, "USD")))
  ∧ (∀ row : SalaryRow,
       (pyFloat? row.salary_low = none ∨ pyFloat? row.salary_high = none) →
       (pyFloat? row.pay_low = none ∨ pyFloat? row.pay_high = none) →
       parse_salary_from_fields row = (none, none, "USD"))
  ∧ parse_salary_from_fields ⟨Val.vnum 50000, Val.vnum 70000, Val.vnull, Val.vnull, Val.vnull⟩
      = (some 50000, some 70000, "USD")
  ∧ parse_salary_from_fields ⟨Val.vnull, Val.vnull, Val.vnum 25, Val.vnum 35, Val.vstr "Hourly" none⟩
      = (some 52000, some 72800, "USD") := by
  refine ⟨?_, ?_, ?_, ?_, ?_⟩
  · intro row l h hl hh
    unfold parse_salary_from_fields
    rw [if_pos (by rw [notna_of_pyFloat _ _ hl, notna_of_pyFloat _ _ hh]; rfl)]
    simp [hl, hh]
  · intro row l h hsal hp1 hp2
    rw [parse_salary_skip row hsal]
    unfold paySection
    rw [if_pos (by rw [notna_of_pyFloat _ _ hp1, notna_of_pyFloat _ _ hp2]; rfl)]
    refine ⟨?_, ?_, ?_⟩
    · intro hhour
      simp [hp1, hp2, hhour]
    · intro hhour hmonth
      simp [hp1, hp2, hhour, hmonth]
    · intro hhour hmonth
      simp [hp1, hp2, hhour, hmonth]
  · intro row hsal hpay
    rw [parse_salary_skip row hsal]
    unfold paySection
    by_cases hb : (notna row.pay_low && notna row.pay_high) = true
    · rw [if_pos hb]
      cases hl : pyFloat? row.pay_low with
      | none => rfl
      | some l =>
        cases hh : pyFloat? row.pay_high with
        | none => rfl
        | some hq =>
          exfalso
          rcases hpay with h | h
          · rw [h] at hl; exact Option.noConfusion hl
          · rw [h] at hh; exact Option.noConfusion hh
    · rw [if_neg hb]
  · simp [parse_salary_from_fields, notna, pyFloat?]
  · have hc : strContainsSub (strLower (valStr (Val.vstr "Hourly" none))) "hour" = true := by
      decide
    simp [parse_salary_from_fields, paySection, hc, notna, pyFloat?]
    norm_num

/-- C3 witness: the theorem instantiated on concrete rows, discharging
each hypothesis. -/
theorem c3_salary_branch_priority_witness :
    parse_salary_from_fields ⟨Val.vnum 1000, Val.vnum 2000, Val.vnum 3, Val.vnum 4, Val.vnull⟩
      = (some 1000, some 2000, "USD")
  ∧ parse_salary_from_fields ⟨Val.vstr "n/a" none, Val.vnum 2000, Val.vnum 10, Val.vnum 20,
      Val.vstr "Monthly" none⟩ = (some 120, some 240, "USD")
  ∧ parse_salary_from_fields ⟨Val.vnull, Val.vnull, Val.vstr "x" none, Val.vnum 4, Val.vnull⟩
      = (none, none, "USD") := by
  refine ⟨c3_salary_branch_priority.1
      ⟨Val.vnum 1000, Val.vnum 2000, Val.vnum 3, Val.vnum 4, Val.vnull⟩ 1000 2000 rfl rfl,
    ?_, ?_⟩
  · have h := (c3_salary_branch_priority.2.1
        ⟨Val.vstr "n/a" none, Val.vnum 2000, Val.vnum 10, Val.vnum 20, Val.vstr "Monthly" none⟩
        10 20 (Or.inl rfl) rfl rfl).2.1 (by decide) (by decide)
    norm_num at h
    exact h
  · exact c3_salary_branch_priority.2.2.1
      ⟨Val.vnull, Val.vnull, Val.vstr "x" none, Val.vnum 4, Val.vnull⟩ (Or.inl rfl) (Or.inl rfl)

/-- C8: for every combination of null, numeric and non-numeric fields the
salary normalizer returns a triple and never raises (its
exception-explicit rendering always yields `Except.ok` of the pure
result); a non-numeric value in an otherwise-eligible branch only skips
that branch: the record is parsed exactly as if that branch's fields
were null, and when both branches are skipped the result is the null
triple. -/
theorem c8_salary_never_raises :
    (∀ row : SalaryRow, parse_salary_run row = Except.ok (parse_salary_from_fields row))
  ∧ (∀ row : SalaryRow, notna row.salary_low = true → notna row.salary_high = true →
       (pyFloat? row.salary_low = none ∨ pyFloat? row.salary_high = none) →
       parse_salary_from_fields row =
         parse_salary_from_fields
           { row with salary_low := Val.vnull, salary_high := Val.vnull })
  ∧ (∀ row : SalaryRow, notna row.pay_low = true → notna row.pay_high = true →
       (pyFloat? row.pay_low = none ∨ pyFloat? row.pay_high = none) →
       (pyFloat? row.salary_low = none ∨ pyFloat? row.salary_high = none) →
       parse_salary_from_fields row = (none, none, "USD")) := by
  refine ⟨parse_salary_run_eq, ?_, ?_⟩
  · intro row h1 h2 h3
    rw [parse_salary_skip row h3]
    have hr : parse_salary_from_fields
        { row with salary_low := Val.vnull, salary_high := Val.vnull } =
        paySection { row with salary_low := Val.vnull, salary_high := Val.vnull } := by
      unfold parse_salary_from_fields
      rw [if_neg (by simp [notna])]
    rw [hr]
    rfl
  · intro row h1 h2 hpay hsal
    rw [parse_salary_skip row hsal]
    unfold paySection
    rw [if_pos (by rw [h1, h2]; rfl)]
    cases hl : pyFloat? row.pay_low with
    | none => rfl
    | some l =>
      cases hh : pyFloat? row.pay_high with
      | none => rfl
      | some hq =>
        exfalso
        rcases hpay with h | h
        · rw [h] at hl; exact Option.noConfusion hl
        · rw [h] at hh; exact Option.noConfusion hh

/-- C8 witness: the theorem instantiated on concrete rows, discharging
each hypothesis. -/
theorem c8_salary_never_raises_witness :
    parse_salary_run ⟨Val.vstr "abc" none, Val.vnum 70000, Val.vnum 25, Val.vnum 35,
        Val.vstr "Hourly" none⟩
      = Except.ok (parse_salary_from_fields ⟨Val.vstr "abc" none, Val.vnum 70000, Val.vnum 25,
          Val.vnum 35, Val.vstr "Hourly" none⟩)
  ∧ parse_salary_from_fields ⟨Val.vstr "abc" none, Val.vnum 70000, Val.vnum 25, Val.vnum 35,
        Val.vstr "Hourly" none⟩
      = parse_salary_from_fields ⟨Val.vnull, Val.vnull, Val.vnum 25, Val.vnum 35,
          Val.vstr "Hourly" none⟩
  ∧ parse_salary_from_fields ⟨Val.vstr "abc" none, Val.vnum 70000, Val.vstr "x" none,
        Val.vnum 35, Val.vnull⟩
      = (none, none, "USD") :=
  ⟨c8_salary_never_raises.1 _,
   c8_salary_never_raises.2.1 _ rfl rfl (Or.inl rfl),
   c8_salary_never_raises.2.2 _ rfl rfl (Or.inl rfl) (Or.inl rfl)⟩

/-- C4 counterexample: the claim predicts that the empty string, like
null, yields (null, null, "USA", false); the code's `pd.isna` test does
not treat "" as null, so the empty string falls through to the
comma-split branch and becomes the (empty) city. -/
theorem c4_location_empty_string_cex :
    parse_location (some "") = (some "", none, "USA", false)
  ∧ decide (parse_location (some "")
      = ((none : Option String), (none : Option String), "USA", false)) = false := by
  decide

/-- C4 (amended): null input yields (null, null, "USA", false); a string
whose stripped, lowercased text contains a remote keyword yields
("Remote", null, "USA", true) regardless of any comma structure; any
other string is split on commas, the first trimmed segment becoming
city and the second (when present) state; a comma-free string (the
empty string included) becomes the city with state null; country is
always "USA". -/
theorem c4_location_rules :
    parse_location none = (none, none, "USA", false)
  ∧ (∀ s : String, isRemoteB (strStrip s) = true →
       parse_location (some s) = (some "Remote", none, "USA", true))
  ∧ (∀ (s c st : String) (rest : List String),
       isRemoteB (strStrip s) = false →
       splitComma (strStrip s) = c :: st :: rest →
       parse_location (some s) = (some (strStrip c), some (strStrip st), "USA", false))
  ∧ (∀ s : String, isRemoteB (strStrip s) = false →
       (splitComma (strStrip s)).length < 2 →
       parse_location (some s) = (some (strStrip s), none, "USA", false))
  ∧ parse_location (some "San Francisco, CA") = (some "San Francisco", some "CA", "USA", false)
  ∧ parse_location (some "100% Remote") = (some "Remote", none, "USA", true)
  ∧ parse_location (some "Remote, CA") = (some "Remote", none, "USA", true)
  ∧ parse_location (some "") = (some "", none, "USA", false) := by
  refine ⟨rfl, ?_, ?_, ?_, by decide, by decide, by decide, by decide⟩
  · intro s h
    simp only [parse_location]
    rw [if_pos h]
  · intro s c st rest hrem hsplit
    simp only [parse_location]
    rw [if_neg (by simp [hrem]), hsplit]
  · intro s hrem hlen
    simp only [parse_location]
    rw [if_neg (by simp [hrem])]
    cases hsp : splitComma (strStrip s) with
    | nil => rfl
    | cons c rest =>
      cases rest with
      | nil => rfl
      | cons st rest2 =>
        exfalso
        rw [hsp] at hlen
        simp at hlen
        omega

/-- C4 witness: the amended theorem instantiated on concrete inputs,
discharging each hypothesis. -/
theorem c4_location_rules_witness :
    parse_location (some "  Boston , MA ") = (some "Boston", some "MA", "USA", false)
  ∧ parse_location (some " wfh only ") = (some "Remote", none, "USA", true)
  ∧ parse_location (some "Chicago") = (some "Chicago", none, "USA", false) :=
  ⟨c4_location_rules.2.2.1 "  Boston , MA " "Boston " " MA" [] (by decide) (by decide),
   c4_location_rules.2.1 " wfh only " (by decide),
   c4_location_rules.2.2.2.1 "Chicago" (by decide) (by decide)⟩

/-- C5: both title classifiers test each category's lowercase triggers by
substring containment against the lowercased title, walk their rule
table in declaration order, and return the FIRST category with a
matching trigger — an entry at index i wins whenever it matches and no
earlier entry matches; with no match anywhere (or a null title) the
defaults are "Mid-level" and "Other"; in particular "Senior Data
Scientist" classifies as seniority "Senior" and "Data Manager" as
"Management". -/
theorem c5_first_match_classifiers :
    (∀ (t : String) (i : Nat) (p : String × List String),
       SENIORITY_KEYWORDS.get? i = some p →
       p.2.any (fun kw => strContainsSub (strLower t) kw) = true →
       (SENIORITY_KEYWORDS.take i).all
         (fun q => !(q.2.any (fun kw => strContainsSub (strLower t) kw))) = true →
       derive_seniority (some t) = p.1)
  ∧ (∀ (t : String) (i : Nat) (p : String × List String),
       JOB_TITLE_GROUPS.get? i = some p →
       p.2.any (fun kw => strContainsSub (strLower t) kw) = true →
       (JOB_TITLE_GROUPS.take i).all
         (fun q => !(q.2.any (fun kw => strContainsSub (strLower t) kw))) = true →
       categorize_job_title (some t) = p.1)
  ∧ (∀ t : String,
       SENIORITY_KEYWORDS.all
         (fun q => !(q.2.any (fun kw => strContainsSub (strLower t) kw))) = true →
       derive_seniority (some t) = "Mid-level")
  ∧ (∀ t : String,
       JOB_TITLE_GROUPS.all
         (fun q => !(q.2.any (fun kw => strContainsSub (strLower t) kw))) = true →
       categorize_job_title (some t) = "Other")
  ∧ derive_seniority none = "Mid-level"
  ∧ categorize_job_title none = "Other"
  ∧ derive_seniority (some "Senior Data Scientist") = "Senior"
  ∧ derive_seniority (some "Data Manager") = "Management" := by
  refine ⟨?_, ?_, ?_, ?_, rfl, rfl, by decide, by decide⟩
  · intro t i p hget htest hall
    exact firstCat_first (fun kws => kws.any (fun kw => strContainsSub (strLower t) kw))
      "Mid-level" SENIORITY_KEYWORDS i p hget htest hall
  · intro t i p hget htest hall
    exact firstCat_first (fun kws => kws.any (fun kw => strContainsSub (strLower t) kw))
      "Other" JOB_TITLE_GROUPS i p hget htest hall
  · intro t hall
    exact firstCat_default (fun kws => kws.any (fun kw => strContainsSub (strLower t) kw))
      "Mid-level" SENIORITY_KEYWORDS hall
  · intro t hall
    exact firstCat_default (fun kws => kws.any (fun kw => strContainsSub (strLower t) kw))
      "Other" JOB_TITLE_GROUPS hall

/-- C5 witness: the theorem instantiated on concrete titles, discharging
each hypothesis. -/
theorem c5_first_match_classifiers_witness :
    derive_seniority (some "Lead Developer") = "Senior"
  ∧ categorize_job_title (some "ETL Developer") = "Data Engineer"
  ∧ derive_seniority (some "Quant") = "Mid-level"
  ∧ categorize_job_title (some "Software Engineer") = "Other" :=
  ⟨c5_first_match_classifiers.1 "Lead Developer" 2
      ("Senior", ["senior", "sr", "sr.", " iii ", "lead", "principal", "staff", "expert"])
      rfl (by decide) (by decide),
   c5_first_match_classifiers.2.1 "ETL Developer" 2
      ("Data Engineer", ["data engineer", "etl developer", "big data engineer",
        "platform engineer", "pipeline engineer", "data warehouse engineer"])
      rfl (by decide) (by decide),
   c5_first_match_classifiers.2.2.1 "Quant" (by decide),
   c5_first_match_classifiers.2.2.2.1 "Software Engineer" (by decide)⟩

/-- C10: a skill's dimension category is the label of the first taxonomy
category, in declaration order, whose list contains the exact skill
name — "Snowflake", listed under both "Databases" and "Cloud
Platforms", is categorized "Databases" — and no extracted skill is ever
assigned the fallback "Other". -/
theorem c10_skill_category_first :
    get_skill_category "Snowflake" = "Databases"
  ∧ (∀ (s : String) (i : Nat) (p : String × List String),
       SKILLS_DICT.get? i = some p → p.2.contains s = true →
       (SKILLS_DICT.take i).all (fun q => !(q.2.contains s)) = true →
       get_skill_category s = p.1)
  ∧ (∀ (rank : String → Nat) (od : Option String) (s : String),
       s ∈ extract_skills rank od → get_skill_category s ≠ "Other") := by
  refine ⟨by decide, ?_, ?_⟩
  · intro s i p hget htest hall
    exact firstCat_first (fun skills => skills.contains s) "Other" SKILLS_DICT i p hget htest hall
  · intro rank od s hs
    rcases (mem_extract_skills rank od s).mp hs with ⟨d, _, p, hp, hmem, _⟩
    have hlab : get_skill_category s ∈ SKILLS_DICT.map Prod.fst := by
      apply firstCat_mem_labels
      exact ⟨p, hp, List.elem_iff.mpr hmem⟩
    intro hother
    rw [hother] at hlab
    have hno : ("Other" : String) ∉ SKILLS_DICT.map Prod.fst := by decide
    exact hno hlab

/-- C10 witness: the theorem instantiated on concrete skills, discharging
each hypothesis. -/
theorem c10_skill_category_first_witness :
    get_skill_category "AWS" = "Cloud Platforms"
  ∧ decide (get_skill_category "Python" = "Other") = false :=
  ⟨c10_skill_category_first.2.1 "AWS" 3
      ("Cloud Platforms", ["AWS", "Azure", "GCP", "Google Cloud", "IBM Cloud", "Oracle Cloud",
        "Databricks", "Snowflake", "Heroku", "DigitalOcean"])
      rfl (by decide) (by decide),
   decide_eq_false (c10_skill_category_first.2.2 hashSeedB (some "We use Python daily")
      "Python" (by decide))⟩

/-- C6: a skill is extracted exactly when its lowercased name occurs in
the lowercased description between word boundaries (for every process
hash order); the two case-variant descriptions yield the identical
matched set {"Python", "SQL"} with the canonical taxonomy casing; and
"MongoDB experience" matches only "MongoDB" — in particular not "Go". -/
theorem c6_skill_matching_word_boundary :
    (∀ (rank : String → Nat) (od : Option String) (s : String),
       s ∈ extract_skills rank od ↔
         ∃ d, od = some d ∧ ∃ p, p ∈ SKILLS_DICT ∧ s ∈ p.2 ∧ skillMatches s d = true)
  ∧ (∀ (rank : String → Nat) (s : String),
       s ∈ extract_skills rank (some "Proficient in Python and SQL") ↔
       s ∈ extract_skills rank (some "proficient in python and sql"))
  ∧ (∀ (rank : String → Nat) (s : String),
       s ∈ extract_skills rank (some "Proficient in Python and SQL") ↔
         (s = "Python" ∨ s = "SQL"))
  ∧ (∀ rank : String → Nat,
       extract_skills rank (some "MongoDB experience") = ["MongoDB"])
  ∧ (∀ rank : String → Nat,
       (extract_skills rank (some "MongoDB experience")).contains "Go" = false) := by
  have hMongo : ∀ rank : String → Nat,
      extract_skills rank (some "MongoDB experience") = ["MongoDB"] := by
    intro rank
    have h : foundSkills "MongoDB experience" = ["MongoDB"] := by decide
    show pySetList rank (foundSkills "MongoDB experience") = ["MongoDB"]
    rw [h]
    rfl
  refine ⟨mem_extract_skills, ?_, ?_, hMongo, ?_⟩
  · intro rank s
    have hl : strLower "Proficient in Python and SQL"
        = strLower "proficient in python and sql" := by decide
    have h : foundSkills "Proficient in Python and SQL"
        = foundSkills "proficient in python and sql" := by
      unfold foundSkills skillMatches
      simp only [hl]
    show s ∈ pySetList rank (foundSkills "Proficient in Python and SQL") ↔
      s ∈ pySetList rank (foundSkills "proficient in python and sql")
    rw [h]
  · intro rank s
    have h : foundSkills "Proficient in Python and SQL" = ["Python", "SQL"] := by decide
    show s ∈ pySetList rank (foundSkills "Proficient in Python and SQL") ↔ _
    rw [mem_pySetList, h]
    simp
  · intro rank
    rw [hMongo rank]
    decide

/-- C7: the element SET the extractor returns is the same for every
process hash order, but the list it returns is not: two hash orders
produce differently ordered lists for the same description, and the
difference propagates to the row order of the bridge table — the
claimed run-to-run determinism of the output files fails. -/
theorem c7_hash_order_leak :
    extract_skills hashSeedA (some c7Desc) = ["SQL", "Python"]
  ∧ extract_skills hashSeedB (some c7Desc) = ["Python", "SQL"]
  ∧ (extract_skills hashSeedA (some c7Desc) == extract_skills hashSeedB (some c7Desc)) = false
  ∧ bridgeRows [mkSkillPosting (extract_skills hashSeedA (some c7Desc))] = [(1, 2), (1, 1)]
  ∧ bridgeRows [mkSkillPosting (extract_skills hashSeedB (some c7Desc))] = [(1, 1), (1, 2)]
  ∧ (bridgeRows [mkSkillPosting (extract_skills hashSeedA (some c7Desc))]
      == bridgeRows [mkSkillPosting (extract_skills hashSeedB (some c7Desc))]) = false
  ∧ (∀ (rank : String → Nat) (s : String),
       s ∈ extract_skills rank (some c7Desc) ↔ (s = "Python" ∨ s = "SQL")) := by
  refine ⟨by decide, by decide, by decide, by decide, by decide, by decide, ?_⟩
  intro rank s
  have h : foundSkills c7Desc = ["Python", "SQL"] := by decide
  show s ∈ pySetList rank (foundSkills c7Desc) ↔ _
  rw [mem_pySetList, h]
  simp

/-- C9: the skill extractor never lists a skill twice for a posting, and
for postings with duplicate-free skill lists the bridge table has
exactly one row per (posting, listed skill) and never repeats a
(posting_id, skill_id) pair. -/
theorem c9_bridge_no_duplicates :
    (∀ (rank : String → Nat) (od : Option String), (extract_skills rank od).Nodup)
  ∧ (∀ rows : List Posting, (∀ p ∈ rows, p.skills_list.Nodup) →
       (bridgeRows rows).Nodup
       ∧ (bridgeRows rows).length = (rows.map (fun p => p.skills_list.length)).sum) :=
  ⟨nodup_extract_skills, fun rows h => ⟨nodup_bridgeRows rows h, length_bridgeRows rows⟩⟩

/-- C9 witness: the theorem instantiated on a concrete collection,
discharging its hypothesis. -/
theorem c9_bridge_no_duplicates_witness :
    (bridgeRows cexRows).Nodup
  ∧ (bridgeRows cexRows).length = (cexRows.map (fun p => p.skills_list.length)).sum :=
  c9_bridge_no_duplicates.2 cexRows (by decide)

/-- C2: the fact table carries posting_id values exactly 1..M in input
order; every non-null foreign key (job, company, location, and the
constant employment type) is a surrogate key present in its referenced
dimension table; and a lookup whose natural key no dimension row
carries yields an explicit null rather than an error or a fabricated
key. -/
theorem c2_fact_referential_integrity :
    (∀ rows : List Posting,
       (assembleFact rows).map FactRow.posting_id = List.range' 1 rows.length)
  ∧ (∀ (rows : List Posting) (f : FactRow), f ∈ assembleFact rows →
       (∀ i : Nat, f.job_id = some i → i ∈ (dimJob rows).map Prod.fst)
       ∧ (∀ i : Nat, f.company_id = some i → i ∈ (dimCompany rows).map Prod.fst)
       ∧ (∀ i : Nat, f.location_id = some i → i ∈ (dimLocation rows).map Prod.fst)
       ∧ f.employment_type_id ∈ dimEmploymentType.map Prod.fst)
  ∧ (∀ (dim : List (Nat × (Option String × String × String)))
       (k : Option String × String × String),
       (∀ r ∈ dim, r.2 ≠ k) → findIdBy id dim k = none) := by
  refine ⟨map_postingId_assembleFact, ?_, ?_⟩
  · intro rows f hf
    rcases List.mem_map.mp hf with ⟨pr, _, rfl⟩
    refine ⟨?_, ?_, ?_, ?_⟩
    · intro i hi
      exact findIdBy_mem id (dimJob rows) (jobKey pr.2) i hi
    · intro i hi
      exact findIdBy_mem Prod.fst (dimCompany rows) pr.2.company_name i hi
    · intro i hi
      exact findIdBy_mem Prod.fst (dimLocation rows) (locKey pr.2) i hi
    · show (1 : Nat) ∈ dimEmploymentType.map Prod.fst
      decide
  · intro dim k h
    exact findIdBy_eq_none id dim k h

/-- C2 witness: the theorem instantiated on a concrete collection, a
concrete fact row, and a concrete missing key, discharging each
hypothesis. -/
theorem c2_fact_referential_integrity_witness :
    (assembleFact cexRows).map FactRow.posting_id = List.range' 1 cexRows.length
  ∧ (1 : Nat) ∈ (dimJob cexRows).map Prod.fst
  ∧ findIdBy id (dimJob cexRows) c2MissingKey = none := by
  refine ⟨c2_fact_referential_integrity.1 cexRows, ?_, ?_⟩
  · exact (c2_fact_referential_integrity.2.1 cexRows c2F0 (by decide)).1 1 rfl
  · exact c2_fact_referential_integrity.2.2 (dimJob cexRows) c2MissingKey (by decide)

/-- C1 counterexample: in `cexRows` the skill "SQL" occurs before
"Python", so first-occurrence order would assign SQL the surrogate key
1; the code builds `dim_skill` from `sorted(set(...))`, so "Python"
gets key 1 and "SQL" key 2 — the claimed first-occurrence key
assignment fails for the skill dimension. -/
theorem c1_skill_dim_not_first_occurrence :
    (dimSkill cexRows).map (fun r => (r.1, r.2.1)) = [(1, "Python"), (2, "SQL")]
  ∧ withIds (firstDedup ((cexRows.map Posting.skills_list).flatten)) = [(1, "SQL"), (2, "Python")]
  ∧ decide ((dimSkill cexRows).map (fun r => (r.1, r.2.1))
      = withIds (firstDedup ((cexRows.map Posting.skills_list).flatten))) = false := by
  decide

/-- C1 (amended): every collection-derived dimension holds exactly one
row per distinct natural-key tuple of the collection with surrogate
keys exactly 1..N; the job, company and location dimensions list those
tuples in first-occurrence order (the company dimension keeping the
first row per company name), while the skill dimension lists the
distinct matched skills in ascending lexicographic order of skill name,
not first-occurrence order. -/
theorem c1_dimension_surrogate_keys : ∀ rows : List Posting,
    ((dimJob rows).map Prod.fst = List.range' 1 ((rows.map jobKey).dedup.length)
      ∧ (dimJob rows).map Prod.snd = firstDedup (rows.map jobKey))
  ∧ ((dimCompany rows).map Prod.fst
        = List.range' 1 ((rows.map Posting.company_name).dedup.length)
      ∧ (dimCompany rows).map (fun r => r.2.1) = firstDedup (rows.map Posting.company_name))
  ∧ ((dimLocation rows).map Prod.fst = List.range' 1 ((rows.map locKey).dedup.length)
      ∧ (dimLocation rows).map (fun r => r.2.1) = firstDedup (rows.map locKey))
  ∧ ((dimSkill rows).map Prod.fst
        = List.range' 1 (((rows.map Posting.skills_list).flatten).dedup.length)
      ∧ (dimSkillNames rows).Nodup
      ∧ (∀ s, s ∈ dimSkillNames rows ↔ s ∈ (rows.map Posting.skills_list).flatten)
      ∧ (dimSkillNames rows).Pairwise (fun a b => strLeB a b = true)) := by
  intro rows
  refine ⟨⟨?_, ?_⟩, ⟨?_, ?_⟩, ⟨?_, ?_⟩, ?_, ?_, ?_, ?_⟩
  · unfold dimJob
    rw [map_fst_withIds, length_firstDedup]
  · unfold dimJob
    exact map_snd_withIds _
  · unfold dimCompany
    rw [map_fst_withIds]
    congr 1
    calc (dropDupFirstBy Prod.fst (rows.map compRow)).length
        = ((dropDupFirstBy Prod.fst (rows.map compRow)).map Prod.fst).length :=
          (List.length_map _ _).symm
      _ = (firstDedup ((rows.map compRow).map Prod.fst)).length := by
          rw [map_key_dropDupFirstBy]
      _ = (firstDedup (rows.map Posting.company_name)).length := by rw [List.map_map]; rfl
      _ = (rows.map Posting.company_name).dedup.length := length_firstDedup _
  · unfold dimCompany
    rw [map_payload_withIds (Prod.fst : Option String × Option ℚ → Option String)]
    rw [map_key_dropDupFirstBy, List.map_map]
    rfl
  · unfold dimLocation
    rw [List.map_map]
    show (withIds (firstDedup (rows.map locKey))).map Prod.fst = _
    rw [map_fst_withIds, length_firstDedup]
  · unfold dimLocation
    rw [List.map_map]
    show (withIds (firstDedup (rows.map locKey))).map Prod.snd = _
    exact map_snd_withIds _
  · unfold dimSkill
    rw [map_fst_withIds]
    congr 1
    rw [List.length_map, (insSort_perm _ _).length_eq]
    exact length_firstDedup _
  · exact nodup_dimSkillNames rows
  · exact fun s => mem_dimSkillNames rows s
  · rw [dimSkillNames_eq]
    exact pairwise_insSort strLeB strLeB_total strLeB_trans _
